import Mathlib

set_option maxHeartbeats 1000000

/-! Shallow embedding of the time-series aggregation and historical tariff-rate
costing core of the gas/electrical data visualiser (octopusApi.ts and the
data-processing utilities).  JavaScript numbers are modelled as rationals and
instants (epoch-millisecond values of Date.prototype.getTime) as integers;
the string-to-date parsing of the runtime and local-time component extraction are
abstracted as explicit function parameters. -/

/-- Models the JS expression Math.round(x * 100) / 100, rounding to 2 decimal
places.  Math.round rounds halves toward positive infinity, as does round. -/
def round2 (x : ℚ) : ℚ := (round (x * 100) : ℤ) / 100

/-- Models the JS expression Math.round(x * 10) / 10, rounding to 1 decimal
place. -/
def round1 (x : ℚ) : ℚ := (round (x * 10) : ℤ) / 10

/-- A unit-rate entry of the tariff schedule (interface TariffRate in
octopusApi.ts): the rate in pence per kWh and its validity window, with
valid_to null (none) for an open-ended entry. -/
structure TariffRate where
  value_inc_vat : ℚ
  valid_from : ℤ
  valid_to : Option ℤ
  deriving DecidableEq, Inhabited

/-- One half-hourly consumption interval (interface ConsumptionDataPoint). -/
structure ConsumptionDataPoint where
  consumption : ℚ
  interval_start : ℤ
  interval_end : ℤ
  deriving DecidableEq, Inhabited

/-- A consumption interval extended with its costing fields (interface
ConsumptionDataPointWithCost). -/
structure ConsumptionDataPointWithCost extends ConsumptionDataPoint where
  cost : ℚ
  rate : ℚ
  standingCharge : ℚ
  deriving DecidableEq, Inhabited

/-- The instant new Date("2099-12-31") that the code substitutes for an absent
valid_to: 2099-12-31T00:00:00Z in epoch milliseconds. -/
def date2099 : ℤ := 4102358400000

/-- Models rates.find(...) in calculateCostsWithHistoricalRates: the first rate
whose window satisfies pointTime >= validFrom && pointTime < validTo, where an
absent valid_to is replaced by new Date("2099-12-31"). -/
def findApplicableRate (rates : List TariffRate) (pointTime : ℤ) : Option TariffRate :=
  rates.find? fun rate =>
    decide (rate.valid_from ≤ pointTime) && decide (pointTime < rate.valid_to.getD date2099)

/-- The per-interval costing step of calculateCostsWithHistoricalRates: resolve
the applicable rate (0 if none), convert pence to pounds, and attach the
pro-rated standing charge. -/
def costPoint (rates : List TariffRate) (standingChargePer30Min : ℚ)
    (point : ConsumptionDataPoint) : ConsumptionDataPointWithCost :=
  let rateValue := match findApplicableRate rates point.interval_start with
    | some applicableRate => applicableRate.value_inc_vat
    | none => 0
  { toConsumptionDataPoint := point
    cost := point.consumption * (rateValue / 100)
    rate := rateValue
    standingCharge := standingChargePer30Min }

/-- Pure core of calculateCostsWithHistoricalRates: the rate schedule and the
daily standing charge (both in pence, already fetched) are parameters.  With no
rates at all, every interval is returned with zero cost, rate and standing
charge; otherwise each interval is costed with its resolved rate and a fixed
1/48 share of the daily standing charge converted to pounds. -/
def calculateCostsWithHistoricalRates (rates : List TariffRate)
    (standingChargePerDay : ℚ) (consumptionData : List ConsumptionDataPoint) :
    List ConsumptionDataPointWithCost :=
  if rates = [] then
    consumptionData.map fun point =>
      { toConsumptionDataPoint := point, cost := 0, rate := 0, standingCharge := 0 }
  else
    let standingChargePer30Min := standingChargePerDay / 100 / 48
    consumptionData.map (costPoint rates standingChargePer30Min)

/-- Math.min spread over a list; the modelled code only applies it to nonempty
lists, and the empty case is given the junk value 0. -/
def listMin : List ℚ → ℚ
  | [] => 0
  | x :: xs => xs.foldl min x

/-- values.reduce((sum, r) => sum + r, 0) / values.length; division by zero
yields 0 in ℚ and is only reached on the empty list. -/
def listMean (l : List ℚ) : ℚ := l.sum / l.length

/-- Time-of-use detection at the end of getCurrentTariffInfo.  hourOf abstracts
Date.prototype.getHours on a valid_from instant (the code leaves the timezone
to the runtime).  The code buckets the rates by hour string, flattens the
night buckets for hours 0 to 4 and the remaining buckets; only the minimum, sum and
length of each flattened list are used, so the bucket traversal order is
immaterial and the two flattenings are written as filters on the hour. -/
def nightRateValues (hourOf : ℤ → ℕ) (rates : List TariffRate) : List ℚ :=
  (rates.filter fun r => decide (hourOf r.valid_from < 5)).map TariffRate.value_inc_vat

/-- The flattened values of the remaining hour buckets (hours 5 to 23). -/
def dayRateValues (hourOf : ℤ → ℕ) (rates : List TariffRate) : List ℚ :=
  (rates.filter fun r => ! decide (hourOf r.valid_from < 5)).map TariffRate.value_inc_vat

/-- The classification itself: with both a night and a day sample present and
the minimum night value at least 20 percent below the mean day value, report
time-of-use (mean day rate, minimum night rate); otherwise report a single
rate equal to the mean of all the sampled values, with no night rate. -/
def detectTariffRates (hourOf : ℤ → ℕ) (rates : List TariffRate) : ℚ × Option ℚ :=
  if nightRateValues hourOf rates ≠ [] ∧ dayRateValues hourOf rates ≠ [] then
    let minNightRate := listMin (nightRateValues hourOf rates)
    let medianDayRate := listMean (dayRateValues hourOf rates)
    if minNightRate < medianDayRate * 0.8 then
      (medianDayRate, some minNightRate)
    else
      (listMean (rates.map TariffRate.value_inc_vat), none)
  else
    (listMean (rates.map TariffRate.value_inc_vat), none)

/-- Models String.prototype.trim, written over the character list so that it
evaluates by kernel reduction. -/
def jsTrim (s : String) : String :=
  ⟨((s.data.dropWhile Char.isWhitespace).reverse.dropWhile Char.isWhitespace).reverse⟩

/-- One parsed CSV row as seen by the complete callback of processCSV: the
Start cell and its padded-header variant, and the two capitalisations of the
consumption cell; none models an absent cell. -/
structure CsvRow where
  start : Option String
  startAlt : Option String
  consumption : Option ℚ
  consumptionAlt : Option ℚ
  deriving DecidableEq, Inhabited

/-- Models row["Start"]?.trim() || row[" Start"]?.trim() followed by the
if (!startDate) return guard: undefined and the empty string are falsy. -/
def effectiveStart (row : CsvRow) : Option String :=
  let s1 := row.start.map jsTrim
  let s2 := row.startAlt.map jsTrim
  let startDate := match s1 with
    | some s => if s ≠ "" then some s else s2
    | none => s2
  match startDate with
  | some s => if s ≠ "" then some s else none
  | none => none

/-- Models row["Consumption (kwh)"] || row["Consumption (kWh)"] || 0 with JS
truthiness: a present cell holding 0 falls through to the next alternative. -/
def rowConsumption (row : CsvRow) : ℚ :=
  match row.consumption with
  | some v =>
    if v ≠ 0 then v else
      match row.consumptionAlt with
      | some w => if w ≠ 0 then w else 0
      | none => 0
  | none =>
    match row.consumptionAlt with
    | some w => if w ≠ 0 then w else 0
    | none => 0

/-- Models if (m[k]) m[k] += v; else m[k] = v; on a JS object represented as
an insertion-ordered association list (a fresh key is appended at the end, and
reassigning a key keeps its position). -/
def bump {α : Type} [DecidableEq α] : List (α × ℚ) → α → ℚ → List (α × ℚ)
  | [], key, v => [(key, v)]
  | (k, w) :: rest, key, v =>
    if k = key then (k, if w ≠ 0 then w + v else v) :: rest
    else (k, w) :: bump rest key v

/-- Models if (!m[k]) m[k] = 0; m[k] += v; — accumulation with default 0. -/
def addVal {α : Type} [DecidableEq α] : List (α × ℚ) → α → ℚ → List (α × ℚ)
  | [], key, v => [(key, v)]
  | (k, w) :: rest, key, v =>
    if k = key then (k, w + v) :: rest else (k, w) :: addVal rest key v

/-- Models the assignment m[k] = v on a JS object. -/
def setVal {α β : Type} [DecidableEq α] : List (α × β) → α → β → List (α × β)
  | [], key, v => [(key, v)]
  | (k, w) :: rest, key, v =>
    if k = key then (k, v) :: rest else (k, w) :: setVal rest key v

/-- First-match lookup m[k] on a JS object represented as an association
list. -/
def lookupA {α β : Type} [DecidableEq α] : List (α × β) → α → Option β
  | [], _ => none
  | (k, v) :: rest, key => if k = key then some v else lookupA rest key

/-- In-place transformation of the value stored under an outer key (mutation
of the inner object yearData[year]); a missing key is left untouched, which is
unreachable in the modelled code. -/
def updA {α β : Type} [DecidableEq α] : List (α × β) → α → (β → β) → List (α × β)
  | [], _, _ => []
  | (k, v) :: rest, key, f =>
    if k = key then (k, f v) :: rest else (k, v) :: updA rest key f

/-- A date label with its (possibly sub-daily) consumption value (interface
DailyDataPoint). -/
structure DailyDataPoint where
  date : String
  value : ℚ
  deriving DecidableEq, Inhabited

/-- The grouping loop of processCSV: rows without a usable Start are skipped
and the rest accumulate their consumption under the full timestamp string. -/
def processRows (rows : List CsvRow) : List (String × ℚ) :=
  rows.foldl
    (fun dailyData row =>
      match effectiveStart row with
      | none => dailyData
      | some date => bump dailyData date (rowConsumption row))
    []

/-- Pure core of processCSV after Papa.parse has delivered the rows: group by
timestamp string, round each group to 2 decimal places, and sort by the parsed
instant.  dateVal abstracts new Date(s).getTime(); Array.prototype.sort is
modelled by insertion sort. -/
def processCSV (dateVal : String → ℤ) (rows : List CsvRow) : List DailyDataPoint :=
  List.insertionSort (fun a b => dateVal a.date ≤ dateVal b.date)
    ((processRows rows).map fun p => ⟨p.1, round2 p.2⟩)

/-- The requested display window (type TimeRange). -/
inductive TimeRange where
  | daily
  | d7
  | d30
  | d90
  | year
  | all
  deriving DecidableEq

/-- Abstraction of the runtime date functions applied to a date string s:
timeOf s is new Date(s).getTime(), yearOf, monthOf and dayOf are the local
getFullYear, getMonth (0-based) and getDate components, and isoDay s is
toISOString().split("T")[0]. -/
structure DateEnv where
  timeOf : String → ℤ
  yearOf : String → ℤ
  monthOf : String → ℕ
  dayOf : String → ℕ
  isoDay : String → String

/-- The daysToShow lookup table of filterDataByTimeRange; none models an
absent key (undefined). -/
def daysToShow : TimeRange → Option ℤ
  | TimeRange.d7 => some 7
  | TimeRange.d30 => some 30
  | TimeRange.d90 => some 90
  | TimeRange.year => some 365
  | _ => none

/-- JS truthiness of the optional selectedDate argument: undefined and the
empty string are falsy. -/
def truthyStr : Option String → Bool
  | none => false
  | some s => s != ""

/-- filterDataByTimeRange from the data utilities, with the runtime date
functions and the current instant now as explicit parameters. -/
def filterDataByTimeRange (env : DateEnv) (now : ℤ) (data : List DailyDataPoint)
    (timeRange : TimeRange) (selectedDate : Option String) : List DailyDataPoint :=
  if data = [] then data
  else if timeRange = TimeRange.daily ∧ truthyStr selectedDate then
    let target := selectedDate.getD ("")
    data.filter fun point =>
      decide (env.yearOf point.date = env.yearOf target) &&
      decide (env.monthOf point.date = env.monthOf target) &&
      decide (env.dayOf point.date = env.dayOf target)
  else
    let filteredData :=
      if timeRange ≠ TimeRange.all then
        match daysToShow timeRange with
        | some days =>
          data.filter fun point => decide (now - days * 86400000 ≤ env.timeOf point.date)
        | none => data
      else data
    let dailyAggregated := filteredData.foldl
      (fun acc point => bump acc (env.isoDay point.date) point.value) []
    List.insertionSort (fun a b => env.timeOf a.date ≤ env.timeOf b.date)
      (dailyAggregated.map fun p => ⟨p.1, round2 p.2⟩)

/-- String(n).padStart(2, "0") for the natural date components fed to it. -/
def pad2 (n : ℕ) : String := if n < 10 then ("0" ++ toString n) else toString n

/-- The MM-DD bucket key built by compareYears from the local month and day
components. -/
def monthDayKey (env : DateEnv) (s : String) : String :=
  pad2 (env.monthOf s + 1) ++ "-" ++ pad2 (env.dayOf s)

/-- One comparison chart point (interface ComparisonDataPoint): the axis label
and the dynamic per-year fields, kept in requested-year order. -/
structure ComparisonDataPoint where
  date : String
  values : List (ℤ × ℚ)
  deriving DecidableEq, Inhabited

/-- Lexicographic string order on the character lists, the order realised by
Array.prototype.sort() on the ASCII keys involved; written over .data so that
it is kernel-decidable. -/
def strLe (a b : String) : Prop := a.data ≤ b.data

instance : DecidableRel strLe := fun a b => inferInstanceAs (Decidable (a.data ≤ b.data))

instance : IsTotal String strLe := ⟨fun a b => le_total a.data b.data⟩

instance : IsTrans String strLe := ⟨fun _ _ _ h h' => le_trans h h'⟩

/-- One step of the data.forEach loop of compareYears: a point whose year is
requested is added into the month-day bucket of that year. -/
def cyStep (env : DateEnv) (years : List ℤ) (acc : List (ℤ × List (String × ℚ)))
    (point : DailyDataPoint) : List (ℤ × List (String × ℚ)) :=
  let year := env.yearOf point.date
  if year ∈ years then
    updA acc year fun m => addVal m (monthDayKey env point.date) point.value
  else acc

/-- The yearData accumulation of compareYears, starting from one empty bucket
map per requested year. -/
def cyFold (env : DateEnv) (years : List ℤ) (data : List DailyDataPoint) :
    List (ℤ × List (String × ℚ)) :=
  data.foldl (cyStep env years) (years.map fun year => (year, ([] : List (String × ℚ))))

/-- The cell extraction yearData[year][monthDay] ? round2(...) : 0 with JS
truthiness (an accumulated 0 takes the : 0 branch). -/
def cyCell {α : Type} [DecidableEq α] (m : List (α × ℚ)) (k : α) : ℚ :=
  match lookupA m k with
  | some v => if v ≠ 0 then round2 v else 0
  | none => 0

/-- The allDays set of compareYears: the union (with JS-Set semantics, here
dedup) of the month-day keys present in the buckets of any requested year. -/
def cyAllDays (env : DateEnv) (years : List ℤ) (data : List DailyDataPoint) :
    List String :=
  (((cyFold env years data).map fun p => p.2.map Prod.fst).flatten).dedup

/-- compareYears from the data utilities: bucket by (year, month-day), take
the union of the month-day keys of the requested years (cyAllDays), sort it,
and emit one point per key with one field per requested year. -/
def compareYears (env : DateEnv) (data : List DailyDataPoint) (years : List ℤ) :
    List ComparisonDataPoint :=
  if years = [] then []
  else
    (List.insertionSort strLe (cyAllDays env years data)).map fun monthDay =>
      { date := monthDay
        values := years.map fun year =>
          (year, cyCell ((lookupA (cyFold env years data) year).getD []) monthDay) }

/-- compareMonths from the data utilities: same shape as compareYears but
restricted to one calendar month and bucketed by day-of-month. -/
def compareMonths (env : DateEnv) (data : List DailyDataPoint) (month : ℕ)
    (years : List ℤ) : List ComparisonDataPoint :=
  if years = [] then []
  else
    let monthData := data.foldl
      (fun acc point =>
        let year := env.yearOf point.date
        let pointMonth := env.monthOf point.date + 1
        if year ∈ years ∧ pointMonth = month then
          updA acc year fun m => addVal m (env.dayOf point.date) point.value
        else acc)
      (years.map fun year => (year, ([] : List (ℕ × ℚ))))
    let allDays := ((monthData.map fun p => p.2.map Prod.fst).flatten).dedup
    (List.insertionSort (· ≤ ·) allDays).map fun day =>
      { date := toString day
        values := years.map fun year =>
          (year, cyCell ((lookupA monthData year).getD []) day) }

/-- The ascending sort [...years].sort((a, b) => a - b) of the requested
years. -/
def sortedYearsAsc (years : List ℤ) : List ℤ := List.insertionSort (· ≤ ·) years

/-- calculatePercentageChanges: iterate over the ascending-sorted years with
their index, writing null for the first year and after a zero previous-year
total, and the rounded relative change otherwise.  The totals map is a
function from year to total, as produced by the totals calculators. -/
def calculatePercentageChanges (totals : ℤ → ℚ) (years : List ℤ) :
    List (ℤ × Option ℚ) :=
  (sortedYearsAsc years).enum.foldl
    (fun changes iy =>
      match iy with
      | (0, year) => setVal changes year none
      | (i + 1, year) =>
        let previousYear := (sortedYearsAsc years).getD i 0
        let currentTotal := totals year
        let previousTotal := totals previousYear
        if previousTotal = 0 then setVal changes year none
        else
          setVal changes year
            (some (round1 ((currentTotal - previousTotal) / previousTotal * 100))))
    []

/-- The per-index value the iteration of calculatePercentageChanges assigns to
the year at index iy.1 of the sorted list: null at index 0, null when the
previous-year total is 0, and the 1-decimal-rounded relative change
otherwise. -/
def pctF (totals : ℤ → ℚ) (sorted : List ℤ) : ℕ × ℤ → Option ℚ
  | (0, _) => none
  | (i + 1, year) =>
    if totals (sorted.getD i 0) = 0 then none
    else some (round1 ((totals year - totals (sorted.getD i 0)) / totals (sorted.getD i 0) * 100))

/-- The month-day aggregate of one requested year: the sum of the values of
the data points of that year falling on the given month-day key. -/
def yearKeySum (env : DateEnv) (data : List DailyDataPoint) (year : ℤ) (k : String) : ℚ :=
  ((data.filter fun p =>
      decide (env.yearOf p.date = year) && decide (monthDayKey env p.date = k)).map
    DailyDataPoint.value).sum

/-- Rate lookup worded as the spec states it: the first entry whose half-open
validity window contains the instant, an absent valid_to being treated as
unbounded-future. -/
def rateWindowContainsSpec (rate : TariffRate) (t : ℤ) : Prop :=
  rate.valid_from ≤ t ∧ (match rate.valid_to with | some v => t < v | none => True)

/-- The window test actually performed by the code: an absent valid_to is the
instant new Date("2099-12-31"). -/
def rateWindowContains (rate : TariffRate) (t : ℤ) : Prop :=
  rate.valid_from ≤ t ∧ t < rate.valid_to.getD date2099

/-- A concrete CSV row used to exercise the conservation property. -/
def csvRowW : CsvRow :=
  { start := some ("2024-01-01"), startAlt := none, consumption := some 1,
    consumptionAlt := none }

/-- A concrete CSV row with a usable timestamp and no consumption cell. -/
def csvRowNoneW : CsvRow :=
  { start := some ("x"), startAlt := none, consumption := none, consumptionAlt := none }

/-- A concrete date environment used to exercise the comparison theorems. -/
def envW : DateEnv :=
  { timeOf := fun _ => 0
    yearOf := fun _ => 2023
    monthOf := fun _ => 0
    dayOf := fun _ => 1
    isoDay := fun s => s }

theorem round2_zero : round2 0 = 0 := by
  simp [round2]

theorem abs_round2_sub_le (x : ℚ) : |round2 x - x| ≤ 1 / 100 := by
  have h := abs_sub_round (x * 100)
  rw [round2, show (round (x * 100) : ℚ) / 100 - x = -((x * 100 - round (x * 100)) / 100) by ring,
    abs_neg, abs_div]
  rw [show |(100 : ℚ)| = 100 by norm_num]
  linarith

theorem getD_map_of_lt {α β : Type} [Inhabited α] [Inhabited β] (f : α → β) :
    ∀ (l : List α) (i : ℕ), i < l.length →
      (l.map f).getD i default = f (l.getD i default)
  | a :: l, 0, _ => rfl
  | a :: l, i + 1, h => getD_map_of_lt f l i (by simpa using h)

theorem find?_first {α : Type} [Inhabited α] (p : α → Bool) :
    ∀ l : List α,
      (l.find? p = none ∧ ∀ r ∈ l, ¬ p r = true) ∨
        ∃ j, j < l.length ∧ p (l.getD j default) = true ∧
          (∀ k, k < j → ¬ p (l.getD k default) = true) ∧
          l.find? p = some (l.getD j default) := by
  intro l
  induction l with
  | nil => exact Or.inl ⟨rfl, by simp⟩
  | cons a l ih =>
    by_cases ha : p a = true
    · refine Or.inr ⟨0, by simp, by simpa using ha, by simp, ?_⟩
      simp [List.find?, ha, List.getD]
    · rcases ih with ⟨h1, h2⟩ | ⟨j, hj, hpj, hkj, hfind⟩
      · refine Or.inl ⟨by simp [List.find?, ha, h1], ?_⟩
        intro r hr
        rcases List.mem_cons.mp hr with rfl | hr
        · exact ha
        · exact h2 r hr
      · refine Or.inr ⟨j + 1, by simpa using hj, by simpa using hpj, ?_, ?_⟩
        · intro k hk
          cases k with
          | zero => exact ha
          | succ k => exact hkj k (by omega)
        · simpa [List.find?, ha] using hfind

theorem lookupA_addVal {α : Type} [DecidableEq α] :
    ∀ (m : List (α × ℚ)) (k k' : α) (v : ℚ),
      lookupA (addVal m k v) k' =
        if k = k' then some ((lookupA m k').getD 0 + v) else lookupA m k' := by
  intro m
  induction m with
  | nil =>
    intro k k' v
    by_cases h : k = k' <;> simp [addVal, lookupA, h]
  | cons a m ih =>
    intro k k' v
    obtain ⟨b, w⟩ := a
    by_cases hbk : b = k
    · subst hbk
      by_cases hkk : b = k'
      · subst hkk
        simp [addVal, lookupA]
      · simp [addVal, lookupA, hkk, fun h => hkk (id (Eq.symm h) : b = k')]
    · by_cases hbk' : b = k'
      · subst hbk'
        have hkk' : ¬ k = b := fun h => hbk h.symm
        simp [addVal, lookupA, hbk, hkk']
      · simp [addVal, lookupA, hbk, hbk', ih]

theorem keys_addVal {α : Type} [DecidableEq α] :
    ∀ (m : List (α × ℚ)) (k : α) (v : ℚ),
      (addVal m k v).map Prod.fst =
        if k ∈ m.map Prod.fst then m.map Prod.fst else m.map Prod.fst ++ [k] := by
  intro m
  induction m with
  | nil => intro k v; simp [addVal]
  | cons a m ih =>
    intro k v
    obtain ⟨b, w⟩ := a
    by_cases hbk : b = k
    · subst hbk
      simp [addVal]
    · have : ¬ k = b := fun h => hbk h.symm
      by_cases hk : k ∈ m.map Prod.fst <;> simp [addVal, hbk, this, hk, ih]

theorem mem_keys_addVal {α : Type} [DecidableEq α] (m : List (α × ℚ)) (k k' : α) (v : ℚ) :
    k' ∈ (addVal m k v).map Prod.fst ↔ k' ∈ m.map Prod.fst ∨ k' = k := by
  rw [keys_addVal]
  split_ifs with h
  · constructor
    · exact fun hm => Or.inl hm
    · rintro (hm | rfl)
      · exact hm
      · exact h
  · simp

theorem nodup_keys_addVal {α : Type} [DecidableEq α] (m : List (α × ℚ)) (k : α) (v : ℚ)
    (h : (m.map Prod.fst).Nodup) : ((addVal m k v).map Prod.fst).Nodup := by
  rw [keys_addVal]
  split_ifs with hk
  · exact h
  · rw [List.nodup_append]
    refine ⟨h, List.nodup_singleton _, fun a ha hb => ?_⟩
    rw [List.mem_singleton] at hb
    exact hk (hb ▸ ha)

theorem sum_addVal {α : Type} [DecidableEq α] :
    ∀ (m : List (α × ℚ)) (k : α) (v : ℚ),
      ((addVal m k v).map Prod.snd).sum = (m.map Prod.snd).sum + v := by
  intro m
  induction m with
  | nil => intro k v; simp [addVal]
  | cons a m ih =>
    intro k v
    obtain ⟨b, w⟩ := a
    by_cases hbk : b = k <;> simp [addVal, hbk, ih] <;> ring

theorem bump_eq_addVal {α : Type} [DecidableEq α] :
    ∀ (m : List (α × ℚ)) (k : α) (v : ℚ), bump m k v = addVal m k v := by
  intro m
  induction m with
  | nil => intro k v; rfl
  | cons a m ih =>
    intro k v
    obtain ⟨b, w⟩ := a
    by_cases hbk : b = k
    · by_cases hw : w = 0 <;> simp [bump, addVal, hbk, hw]
    · simp [bump, addVal, hbk, ih]

theorem lookupA_isSome_iff {α β : Type} [DecidableEq α] :
    ∀ (m : List (α × β)) (k : α), (lookupA m k).isSome ↔ k ∈ m.map Prod.fst := by
  intro m
  induction m with
  | nil => intro k; simp [lookupA]
  | cons a m ih =>
    intro k
    obtain ⟨b, w⟩ := a
    by_cases hbk : b = k
    · subst hbk
      simp [lookupA]
    · simp only [lookupA, hbk, if_false, List.map_cons, List.mem_cons]
      rw [ih]
      constructor
      · exact fun h => Or.inr h
      · rintro (rfl | h)
        · exact absurd rfl hbk
        · exact h

theorem lookupA_mem {α β : Type} [DecidableEq α] :
    ∀ (m : List (α × β)) (k : α) (v : β), lookupA m k = some v → (k, v) ∈ m := by
  intro m
  induction m with
  | nil => intro k v h; simp [lookupA] at h
  | cons a m ih =>
    intro k v h
    obtain ⟨b, w⟩ := a
    by_cases hbk : b = k
    · subst hbk
      simp [lookupA] at h
      simp [h]
    · simp [lookupA, hbk] at h
      exact List.mem_cons_of_mem _ (ih k v h)

theorem keys_updA {α β : Type} [DecidableEq α] :
    ∀ (m : List (α × β)) (k : α) (f : β → β), (updA m k f).map Prod.fst = m.map Prod.fst := by
  intro m
  induction m with
  | nil => intro k f; rfl
  | cons a m ih =>
    intro k f
    obtain ⟨b, w⟩ := a
    by_cases hbk : b = k <;> simp [updA, hbk, ih]

theorem lookupA_updA_self {α β : Type} [DecidableEq α] :
    ∀ (m : List (α × β)) (k : α) (f : β → β),
      lookupA (updA m k f) k = (lookupA m k).map f := by
  intro m
  induction m with
  | nil => intro k f; rfl
  | cons a m ih =>
    intro k f
    obtain ⟨b, w⟩ := a
    by_cases hbk : b = k <;> simp [updA, lookupA, hbk, ih]

theorem lookupA_updA_ne {α β : Type} [DecidableEq α] :
    ∀ (m : List (α × β)) (k k' : α) (f : β → β), k' ≠ k →
      lookupA (updA m k f) k' = lookupA m k' := by
  intro m
  induction m with
  | nil => intro k k' f _; rfl
  | cons a m ih =>
    intro k k' f hne
    obtain ⟨b, w⟩ := a
    by_cases hbk : b = k
    · subst hbk
      have hbk' : ¬ b = k' := fun h => hne h.symm
      simp [updA, lookupA, hbk']
    · by_cases hbk' : b = k'
      · simp [updA, lookupA, hbk, hbk', hne]
      · simp [updA, lookupA, hbk, hbk', ih _ _ _ hne]

theorem mem_updA {α β : Type} [DecidableEq α] :
    ∀ (m : List (α × β)) (k : α) (f : β → β) (a : α) (b : β),
      (a, b) ∈ updA m k f → (a, b) ∈ m ∨ ∃ b₀, (a, b₀) ∈ m ∧ a = k ∧ b = f b₀ := by
  intro m
  induction m with
  | nil => intro k f a b h; simp [updA] at h
  | cons hd m ih =>
    intro k f a b h
    obtain ⟨c, w⟩ := hd
    by_cases hck : c = k
    · subst hck
      have h' : (a, b) ∈ (c, f w) :: m := by
        have hu : updA ((c, w) :: m) c f = (c, f w) :: m := by simp [updA]
        rw [hu] at h
        exact h
      rcases List.mem_cons.mp h' with heq | hm
      · cases heq
        exact Or.inr ⟨w, List.mem_cons_self _ _, rfl, rfl⟩
      · exact Or.inl (List.mem_cons_of_mem _ hm)
    · have h' : (a, b) ∈ (c, w) :: updA m k f := by
        have hu : updA ((c, w) :: m) k f = (c, w) :: updA m k f := by simp [updA, hck]
        rw [hu] at h
        exact h
      rcases List.mem_cons.mp h' with heq | hm
      · exact Or.inl (by simp [heq])
      · rcases ih k f a b hm with h1 | ⟨b₀, hb₀, ha, hb⟩
        · exact Or.inl (List.mem_cons_of_mem _ h1)
        · exact Or.inr ⟨b₀, List.mem_cons_of_mem _ hb₀, ha, hb⟩

theorem setVal_of_not_mem {α β : Type} [DecidableEq α] :
    ∀ (m : List (α × β)) (k : α) (v : β), k ∉ m.map Prod.fst →
      setVal m k v = m ++ [(k, v)] := by
  intro m
  induction m with
  | nil => intro k v _; rfl
  | cons a m ih =>
    intro k v h
    obtain ⟨b, w⟩ := a
    simp only [List.map_cons, List.mem_cons] at h
    push_neg at h
    have hbk : ¬ b = k := fun hh => h.1 hh.symm
    simp [setVal, hbk, ih _ _ h.2]

theorem foldl_addVal_lookupA {α : Type} [DecidableEq α] :
    ∀ (items : List (α × ℚ)) (g : List (α × ℚ)) (k : α),
      (lookupA (items.foldl (fun m it => addVal m it.1 it.2) g) k).getD 0 =
        (lookupA g k).getD 0 +
          ((items.filter fun it => decide (it.1 = k)).map Prod.snd).sum := by
  intro items
  induction items with
  | nil => intro g k; simp
  | cons it items ih =>
    intro g k
    obtain ⟨a, v⟩ := it
    by_cases hak : a = k
    · subst hak
      simp only [List.foldl_cons, ih, List.filter_cons]
      rw [lookupA_addVal]
      simp [add_assoc]
    · simp only [List.foldl_cons, ih, List.filter_cons]
      rw [lookupA_addVal]
      simp [hak]

theorem foldl_addVal_mem_keys {α : Type} [DecidableEq α] :
    ∀ (items : List (α × ℚ)) (g : List (α × ℚ)) (k : α),
      (k ∈ (items.foldl (fun m it => addVal m it.1 it.2) g).map Prod.fst ↔
        k ∈ g.map Prod.fst ∨ ∃ it ∈ items, it.1 = k) := by
  intro items
  induction items with
  | nil => intro g k; simp
  | cons it items ih =>
    intro g k
    obtain ⟨a, v⟩ := it
    simp only [List.foldl_cons, ih, mem_keys_addVal, List.mem_cons]
    constructor
    · rintro ((hg | rfl) | ⟨it, hit, rfl⟩)
      · exact Or.inl hg
      · exact Or.inr ⟨(k, v), Or.inl rfl, rfl⟩
      · exact Or.inr ⟨it, Or.inr hit, rfl⟩
    · rintro (hg | ⟨it, hit | hit, rfl⟩)
      · exact Or.inl (Or.inl hg)
      · rw [hit]
        exact Or.inl (Or.inr rfl)
      · exact Or.inr ⟨it, hit, rfl⟩

theorem foldl_addVal_nodup {α : Type} [DecidableEq α] :
    ∀ (items : List (α × ℚ)) (g : List (α × ℚ)),
      (g.map Prod.fst).Nodup →
        ((items.foldl (fun m it => addVal m it.1 it.2) g).map Prod.fst).Nodup := by
  intro items
  induction items with
  | nil => intro g h; exact h
  | cons it items ih =>
    intro g h
    exact ih _ (nodup_keys_addVal _ _ _ h)

theorem foldl_addVal_sum {α : Type} [DecidableEq α] :
    ∀ (items : List (α × ℚ)) (g : List (α × ℚ)),
      ((items.foldl (fun m it => addVal m it.1 it.2) g).map Prod.snd).sum =
        (g.map Prod.snd).sum + (items.map Prod.snd).sum := by
  intro items
  induction items with
  | nil => intro g; simp
  | cons it items ih =>
    intro g
    simp only [List.foldl_cons, ih, sum_addVal, List.map_cons, List.sum_cons]
    ring

theorem processRows_eq (rows : List CsvRow) :
    processRows rows =
      (rows.filterMap fun r => (effectiveStart r).map fun d => (d, rowConsumption r)).foldl
        (fun m it => addVal m it.1 it.2) [] := by
  have main : ∀ (rows : List CsvRow) (acc : List (String × ℚ)),
      rows.foldl
        (fun dailyData row =>
          match effectiveStart row with
          | none => dailyData
          | some date => bump dailyData date (rowConsumption row)) acc =
      (rows.filterMap fun r => (effectiveStart r).map fun d => (d, rowConsumption r)).foldl
        (fun m it => addVal m it.1 it.2) acc := by
    intro rows
    induction rows with
    | nil => intro acc; rfl
    | cons r rows ih =>
      intro acc
      cases hr : effectiveStart r with
      | none => simp only [List.foldl_cons, List.filterMap_cons, hr, Option.map_none', ih]
      | some d =>
        simp only [List.foldl_cons, List.filterMap_cons, hr, Option.map_some']
        rw [bump_eq_addVal]
        exact ih _
  exact main rows []

theorem filterMap_snd_of_all_some :
    ∀ rows : List CsvRow, (∀ r ∈ rows, (effectiveStart r).isSome) →
      ((rows.filterMap fun r => (effectiveStart r).map fun d => (d, rowConsumption r)).map
          Prod.snd) = rows.map rowConsumption := by
  intro rows
  induction rows with
  | nil => intro _; rfl
  | cons r rows ih =>
    intro h
    cases hr : effectiveStart r with
    | none =>
      exact absurd (h r (List.mem_cons_self _ _)) (by simp [hr])
    | some d =>
      simp only [List.filterMap_cons, hr, Option.map_some', List.map_cons]
      rw [ih fun r' hr' => h r' (List.mem_cons_of_mem _ hr')]

theorem sum_map_round2_le (l : List ℚ) :
    |(l.map round2).sum - l.sum| ≤ (l.length : ℚ) * (1 / 100) := by
  induction l with
  | nil => simp
  | cons x l ih =>
    simp only [List.map_cons, List.sum_cons, List.length_cons]
    have h1 : round2 x + (l.map round2).sum - (x + l.sum) =
        (round2 x - x) + ((l.map round2).sum - l.sum) := by ring
    rw [h1]
    calc |(round2 x - x) + ((l.map round2).sum - l.sum)|
        ≤ |round2 x - x| + |(l.map round2).sum - l.sum| := abs_add _ _
      _ ≤ 1 / 100 + (l.length : ℚ) * (1 / 100) := by
          exact add_le_add (abs_round2_sub_le x) ih
      _ = ((l.length : ℚ) + 1) * (1 / 100) := by ring
      _ = (((l.length : ℕ) + 1 : ℕ) : ℚ) * (1 / 100) := by push_cast; ring

theorem init_lookupA {β : Type} (c : β) :
    ∀ (years : List ℤ) (y : ℤ),
      lookupA (years.map fun x => (x, c)) y = if y ∈ years then some c else none := by
  intro years
  induction years with
  | nil => intro y; simp [lookupA]
  | cons a years ih =>
    intro y
    by_cases hay : a = y
    · subst hay
      simp [lookupA]
    · have hya : ¬ y = a := fun h => hay h.symm
      simp [lookupA, hay, hya, ih]

theorem keys_foldl_cyStep (env : DateEnv) (years : List ℤ) :
    ∀ (data : List DailyDataPoint) (acc : List (ℤ × List (String × ℚ))),
      ((data.foldl (cyStep env years) acc).map Prod.fst) = acc.map Prod.fst := by
  intro data
  induction data with
  | nil => intro acc; rfl
  | cons p data ih =>
    intro acc
    rw [List.foldl_cons, ih]
    by_cases h : env.yearOf p.date ∈ years
    · simp [cyStep, h, keys_updA]
    · simp [cyStep, h]

theorem lookupA_foldl_cyStep (env : DateEnv) (years : List ℤ) (y : ℤ) (hy : y ∈ years) :
    ∀ (data : List DailyDataPoint) (acc : List (ℤ × List (String × ℚ))),
      lookupA (data.foldl (cyStep env years) acc) y =
        (lookupA acc y).map fun g =>
          (((data.filter fun p => decide (env.yearOf p.date = y)).map fun p =>
              (monthDayKey env p.date, p.value)).foldl (fun m it => addVal m it.1 it.2) g) := by
  intro data
  induction data with
  | nil =>
    intro acc
    cases h : lookupA acc y <;> simp [h]
  | cons p data ih =>
    intro acc
    rw [List.foldl_cons]
    by_cases hyp : env.yearOf p.date ∈ years
    · by_cases hyy : env.yearOf p.date = y
      · have hstep : cyStep env years acc p =
            updA acc y fun m => addVal m (monthDayKey env p.date) p.value := by
          simp [cyStep, hyy, hy]
        rw [hstep, ih, lookupA_updA_self]
        rw [List.filter_cons_of_pos (by simpa using hyy), List.map_cons]
        cases h : lookupA acc y <;> simp [h]
      · have hstep : cyStep env years acc p =
            updA acc (env.yearOf p.date) fun m =>
              addVal m (monthDayKey env p.date) p.value := by
          simp [cyStep, hyp]
        rw [hstep, ih, lookupA_updA_ne _ _ _ _ fun h => hyy h.symm]
        rw [List.filter_cons_of_neg (by simpa using hyy)]
    · have hyy : ¬ env.yearOf p.date = y := fun h => hyp (h ▸ hy)
      have hstep : cyStep env years acc p = acc := by
        simp [cyStep, hyp]
      rw [hstep, ih, List.filter_cons_of_neg (by simpa using hyy)]

theorem keys_of_cyFold_entries (env : DateEnv) (years : List ℤ) :
    ∀ (data : List DailyDataPoint) (acc : List (ℤ × List (String × ℚ)))
      (y : ℤ) (g : List (String × ℚ)),
      (y, g) ∈ data.foldl (cyStep env years) acc → ∀ k ∈ g.map Prod.fst,
        (∃ g₀, (y, g₀) ∈ acc ∧ k ∈ g₀.map Prod.fst) ∨
          ∃ p ∈ data, env.yearOf p.date = y ∧ monthDayKey env p.date = k := by
  intro data
  induction data with
  | nil =>
    intro acc y g hmem k hk
    exact Or.inl ⟨g, hmem, hk⟩
  | cons p data ih =>
    intro acc y g hmem k hk
    rw [List.foldl_cons] at hmem
    rcases ih _ y g hmem k hk with ⟨g₀, hg₀, hkg₀⟩ | ⟨q, hq, hqy, hqk⟩
    · simp only [cyStep] at hg₀
      split_ifs at hg₀ with hyp
      · rcases mem_updA _ _ _ _ _ hg₀ with hin | ⟨g₁, hg₁, rfl, rfl⟩
        · exact Or.inl ⟨g₀, hin, hkg₀⟩
        · rcases (mem_keys_addVal _ _ _ _).mp hkg₀ with hk1 | rfl
          · exact Or.inl ⟨g₁, hg₁, hk1⟩
          · exact Or.inr ⟨p, List.mem_cons_self _ _, rfl, rfl⟩
      · exact Or.inl ⟨g₀, hg₀, hkg₀⟩
    · exact Or.inr ⟨q, List.mem_cons_of_mem _ hq, hqy, hqk⟩

theorem costPoint_rate (rates : List TariffRate) (sc : ℚ) (p : ConsumptionDataPoint) :
    (costPoint rates sc p).rate =
      match findApplicableRate rates p.interval_start with
      | some applicableRate => applicableRate.value_inc_vat
      | none => 0 := rfl

theorem costPoint_cost (rates : List TariffRate) (sc : ℚ) (p : ConsumptionDataPoint) :
    (costPoint rates sc p).cost = p.consumption * ((costPoint rates sc p).rate / 100) := rfl

theorem rateWindow_pred_iff (r : TariffRate) (t : ℤ) :
    ((decide (r.valid_from ≤ t) && decide (t < r.valid_to.getD date2099)) = true) ↔
      rateWindowContains r t := by
  simp [rateWindowContains]

/-- C8: calling compareYears or compareMonths with an empty requested-year
list returns an empty array, with no error and no output points, for every
input series and month. -/
theorem compare_empty_years (env : DateEnv) (data : List DailyDataPoint) (month : ℕ) :
    compareYears env data [] = [] ∧ compareMonths env data month [] = [] :=
  ⟨rfl, rfl⟩

/-- C10: RangeFilter with window daily but an absent or empty target date
falls through to the aggregation path with no cutoff: it returns the whole
series re-aggregated to one 2-decimal-rounded value per calendar-day key and
sorted ascending, the same result as window all. -/
theorem filterData_daily_no_date (env : DateEnv) (now : ℤ) (data : List DailyDataPoint) :
    filterDataByTimeRange env now data TimeRange.daily none =
      filterDataByTimeRange env now data TimeRange.all none ∧
    filterDataByTimeRange env now data TimeRange.daily (some ("")) =
      filterDataByTimeRange env now data TimeRange.all none ∧
    filterDataByTimeRange env now data TimeRange.daily none =
      List.insertionSort (fun a b => env.timeOf a.date ≤ env.timeOf b.date)
        ((data.foldl (fun acc point => bump acc (env.isoDay point.date) point.value) []).map
          fun p => ⟨p.1, round2 p.2⟩) := by
  have hts : truthyStr (some ("")) = false := rfl
  by_cases hd : data = []
  · subst hd
    exact ⟨rfl, rfl, rfl⟩
  · refine ⟨?_, ?_, ?_⟩ <;>
      simp [filterDataByTimeRange, truthyStr, daysToShow, hd, hts]

/-- C2: every costed interval satisfies cost = consumptionKwh * (appliedRate /
100), the applied rate being in pence and the cost in pounds; in particular a
28.42-pence rate on 10 kWh yields cost 2.842, which rounds to 2.84. -/
theorem cost_unit_conversion (rates : List TariffRate) (standingChargePerDay : ℚ)
    (data : List ConsumptionDataPoint) (q : ConsumptionDataPointWithCost)
    (hq : q ∈ calculateCostsWithHistoricalRates rates standingChargePerDay data) :
    q.cost = q.consumption * (q.rate / 100) ∧
    ((calculateCostsWithHistoricalRates
        [{ value_inc_vat := 28.42, valid_from := 0, valid_to := none }] 96
        [{ consumption := 10, interval_start := 0, interval_end := 1800000 }]).getD 0
          default).cost = 2.842 ∧
    round2 2.842 = 2.84 := by
  refine ⟨?_, ?_, ?_⟩
  · unfold calculateCostsWithHistoricalRates at hq
    split_ifs at hq with hr
    · obtain ⟨p, hp, rfl⟩ := List.mem_map.mp hq
      simp
    · obtain ⟨p, hp, rfl⟩ := List.mem_map.mp hq
      simp [costPoint]
  · norm_num [calculateCostsWithHistoricalRates, costPoint, findApplicableRate,
      date2099, List.find?]
  · norm_num [round2, round_eq, Int.floor_eq_iff]

theorem cost_unit_conversion_witness :
    (costPoint [{ value_inc_vat := 28.42, valid_from := 0, valid_to := none }]
          ((96 : ℚ) / 100 / 48) { consumption := 10, interval_start := 0, interval_end := 1800000 } ∈
        calculateCostsWithHistoricalRates
          [{ value_inc_vat := 28.42, valid_from := 0, valid_to := none }] 96
          [{ consumption := 10, interval_start := 0, interval_end := 1800000 }]) ∧
    ((costPoint [{ value_inc_vat := 28.42, valid_from := 0, valid_to := none }]
          ((96 : ℚ) / 100 / 48) { consumption := 10, interval_start := 0, interval_end := 1800000 }).cost =
        (costPoint [{ value_inc_vat := 28.42, valid_from := 0, valid_to := none }]
          ((96 : ℚ) / 100 / 48) { consumption := 10, interval_start := 0, interval_end := 1800000 }).consumption *
          ((costPoint [{ value_inc_vat := 28.42, valid_from := 0, valid_to := none }]
            ((96 : ℚ) / 100 / 48) { consumption := 10, interval_start := 0, interval_end := 1800000 }).rate / 100) ∧
      ((calculateCostsWithHistoricalRates
          [{ value_inc_vat := 28.42, valid_from := 0, valid_to := none }] 96
          [{ consumption := 10, interval_start := 0, interval_end := 1800000 }]).getD 0
            default).cost = 2.842 ∧
      round2 2.842 = 2.84) := by
  refine ⟨?_, ?_⟩
  · simp [calculateCostsWithHistoricalRates]
  · exact cost_unit_conversion
      [{ value_inc_vat := 28.42, valid_from := 0, valid_to := none }] 96
      [{ consumption := 10, interval_start := 0, interval_end := 1800000 }] _
      (by simp [calculateCostsWithHistoricalRates])

/-- C3 counterexample: with a daily standing charge figure of 48 (pence) the
code assigns each interval a standing charge share of 48 / 100 / 48 = 0.01
pounds, not 48 / 48 = 1 as the words of the claim (perDayIncVat divided by 48)
state: the code also divides by 100 to convert pence to pounds. -/
theorem standingCharge_share_cex :
    ((calculateCostsWithHistoricalRates
        [{ value_inc_vat := 10, valid_from := 0, valid_to := none }] 48
        [{ consumption := 1, interval_start := 0, interval_end := 1800000 }]).getD 0
          default).standingCharge = 1 / 100 ∧
    (48 : ℚ) / 48 = 1 ∧
    ¬ ((calculateCostsWithHistoricalRates
        [{ value_inc_vat := 10, valid_from := 0, valid_to := none }] 48
        [{ consumption := 1, interval_start := 0, interval_end := 1800000 }]).getD 0
          default).standingCharge = (48 : ℚ) / 48 := by
  refine ⟨?_, by norm_num, ?_⟩ <;>
    norm_num [calculateCostsWithHistoricalRates, costPoint, findApplicableRate,
      date2099, List.find?]

/-- C3 amended: whenever any rates were resolved, the standing charge share
of every costed interval equals perDayIncVat / 100 / 48 — the daily figure in
pence converted to pounds and split over the 48 half-hour intervals — the same
fixed fraction for every interval of the invocation, with no dependence on the
calendar date of the interval. -/
theorem standingCharge_share_uniform (rates : List TariffRate)
    (standingChargePerDay : ℚ) (data : List ConsumptionDataPoint)
    (q : ConsumptionDataPointWithCost) (hr : rates ≠ [])
    (hq : q ∈ calculateCostsWithHistoricalRates rates standingChargePerDay data) :
    q.standingCharge = standingChargePerDay / 100 / 48 ∧
    ∀ q' ∈ calculateCostsWithHistoricalRates rates standingChargePerDay data,
      q'.standingCharge = q.standingCharge := by
  have main : ∀ q' ∈ calculateCostsWithHistoricalRates rates standingChargePerDay data,
      q'.standingCharge = standingChargePerDay / 100 / 48 := by
    intro q' hq'
    unfold calculateCostsWithHistoricalRates at hq'
    rw [if_neg hr] at hq'
    obtain ⟨p, hp, rfl⟩ := List.mem_map.mp hq'
    simp [costPoint]
  refine ⟨main q hq, fun q' hq' => ?_⟩
  rw [main q' hq', main q hq]

theorem standingCharge_share_uniform_witness :
    (([{ value_inc_vat := 10, valid_from := 0, valid_to := none }] : List TariffRate) ≠ []) ∧
    (costPoint [{ value_inc_vat := 10, valid_from := 0, valid_to := none }]
          ((48 : ℚ) / 100 / 48) { consumption := 1, interval_start := 0, interval_end := 1800000 } ∈
        calculateCostsWithHistoricalRates
          [{ value_inc_vat := 10, valid_from := 0, valid_to := none }] 48
          [{ consumption := 1, interval_start := 0, interval_end := 1800000 }]) ∧
    ((costPoint [{ value_inc_vat := 10, valid_from := 0, valid_to := none }]
          ((48 : ℚ) / 100 / 48) { consumption := 1, interval_start := 0, interval_end := 1800000 }).standingCharge =
        (48 : ℚ) / 100 / 48 ∧
      ∀ q' ∈ calculateCostsWithHistoricalRates
          [{ value_inc_vat := 10, valid_from := 0, valid_to := none }] 48
          [{ consumption := 1, interval_start := 0, interval_end := 1800000 }],
        q'.standingCharge =
          (costPoint [{ value_inc_vat := 10, valid_from := 0, valid_to := none }]
            ((48 : ℚ) / 100 / 48) { consumption := 1, interval_start := 0, interval_end := 1800000 }).standingCharge) := by
  refine ⟨?_, ?_, ?_⟩
  · simp
  · simp [calculateCostsWithHistoricalRates]
  · exact standingCharge_share_uniform
      [{ value_inc_vat := 10, valid_from := 0, valid_to := none }] 48
      [{ consumption := 1, interval_start := 0, interval_end := 1800000 }] _
      (by simp) (by simp [calculateCostsWithHistoricalRates])

/-- C1 counterexample: an open-ended RateEntry is not treated as
unbounded-future.  The single entry valid from instant 0 with absent valid_to
contains the instant 2099-12-31T00:00Z under the reading of the claim, yet the code
(which substitutes new Date("2099-12-31") for the absent bound) applies rate 0
to an interval starting at that instant instead of the rate 10 of the entry. -/
theorem rateLookup_openEnded_cex :
    rateWindowContainsSpec { value_inc_vat := 10, valid_from := 0, valid_to := none }
      date2099 ∧
    ((calculateCostsWithHistoricalRates
        [{ value_inc_vat := 10, valid_from := 0, valid_to := none }] 0
        [{ consumption := 5, interval_start := date2099, interval_end := date2099 + 1800000 }]).getD
          0 default).rate = 0 ∧
    (10 : ℚ) ≠ 0 := by
  refine ⟨⟨by norm_num [date2099], trivial⟩, ?_, by norm_num⟩
  norm_num [calculateCostsWithHistoricalRates, costPoint, findApplicableRate, date2099,
    List.find?]

/-- C1 amended: for the interval at any index, the applied rate is the value
of the first RateEntry, in the order supplied, whose window
[validFrom, validTo) contains the start instant of the interval — an absent validTo
being treated as the instant new Date("2099-12-31"), not as unbounded-future;
if no entry contains that instant the applied rate is 0 and the cost of the
interval is 0, with no exception raised. -/
theorem rateLookup_firstMatch (rates : List TariffRate) (standingChargePerDay : ℚ)
    (data : List ConsumptionDataPoint) (i : ℕ) (hi : i < data.length) :
    (∃ j, j < rates.length ∧
        rateWindowContains (rates.getD j default) ((data.getD i default).interval_start) ∧
        (∀ k, k < j →
          ¬ rateWindowContains (rates.getD k default) ((data.getD i default).interval_start)) ∧
        ((calculateCostsWithHistoricalRates rates standingChargePerDay data).getD i
            default).rate = (rates.getD j default).value_inc_vat) ∨
      ((∀ r ∈ rates, ¬ rateWindowContains r ((data.getD i default).interval_start)) ∧
        ((calculateCostsWithHistoricalRates rates standingChargePerDay data).getD i
            default).rate = 0 ∧
        ((calculateCostsWithHistoricalRates rates standingChargePerDay data).getD i
            default).cost = 0) := by
  by_cases hr : rates = []
  · subst hr
    refine Or.inr ⟨by simp, ?_, ?_⟩ <;>
      rw [show calculateCostsWithHistoricalRates [] standingChargePerDay data =
          data.map fun point =>
            { toConsumptionDataPoint := point, cost := 0, rate := 0, standingCharge := 0 } from rfl,
        getD_map_of_lt _ data i hi]
  · have hout : (calculateCostsWithHistoricalRates rates standingChargePerDay data).getD i
        default = costPoint rates (standingChargePerDay / 100 / 48) (data.getD i default) := by
      unfold calculateCostsWithHistoricalRates
      rw [if_neg hr]
      exact getD_map_of_lt _ data i hi
    rcases find?_first
        (fun rate =>
          decide (rate.valid_from ≤ (data.getD i default).interval_start) &&
            decide ((data.getD i default).interval_start < rate.valid_to.getD date2099))
        rates with ⟨hnone, hall⟩ | ⟨j, hj, hpj, hkj, hfind⟩
    · have hfn : findApplicableRate rates ((data.getD i default).interval_start) = none := hnone
      refine Or.inr ⟨fun r hrr hcont => hall r hrr ((rateWindow_pred_iff r _).mpr hcont), ?_, ?_⟩
      · rw [hout, costPoint_rate, hfn]
      · rw [hout, costPoint_cost, costPoint_rate, hfn]
        simp
    · have hfs : findApplicableRate rates ((data.getD i default).interval_start) =
          some (rates.getD j default) := hfind
      refine Or.inl ⟨j, hj, (rateWindow_pred_iff _ _).mp hpj, ?_, ?_⟩
      · intro k hk hcont
        exact hkj k hk ((rateWindow_pred_iff _ _).mpr hcont)
      · rw [hout, costPoint_rate, hfs]

theorem rateLookup_firstMatch_witness :
    0 < [({ consumption := 5, interval_start := 100, interval_end := 1900 } :
        ConsumptionDataPoint)].length ∧
    ((∃ j, j < [({ value_inc_vat := 10, valid_from := 0, valid_to := none } : TariffRate)].length ∧
        rateWindowContains
          ([({ value_inc_vat := 10, valid_from := 0, valid_to := none } : TariffRate)].getD j default)
          (([({ consumption := 5, interval_start := 100, interval_end := 1900 } :
              ConsumptionDataPoint)].getD 0 default).interval_start) ∧
        (∀ k, k < j →
          ¬ rateWindowContains
            ([({ value_inc_vat := 10, valid_from := 0, valid_to := none } : TariffRate)].getD k default)
            (([({ consumption := 5, interval_start := 100, interval_end := 1900 } :
                ConsumptionDataPoint)].getD 0 default).interval_start)) ∧
        ((calculateCostsWithHistoricalRates
            [{ value_inc_vat := 10, valid_from := 0, valid_to := none }] 0
            [{ consumption := 5, interval_start := 100, interval_end := 1900 }]).getD 0
              default).rate =
          ([({ value_inc_vat := 10, valid_from := 0, valid_to := none } : TariffRate)].getD j
              default).value_inc_vat) ∨
      ((∀ r ∈ [({ value_inc_vat := 10, valid_from := 0, valid_to := none } : TariffRate)],
          ¬ rateWindowContains r
            (([({ consumption := 5, interval_start := 100, interval_end := 1900 } :
                ConsumptionDataPoint)].getD 0 default).interval_start)) ∧
        ((calculateCostsWithHistoricalRates
            [{ value_inc_vat := 10, valid_from := 0, valid_to := none }] 0
            [{ consumption := 5, interval_start := 100, interval_end := 1900 }]).getD 0
              default).rate = 0 ∧
        ((calculateCostsWithHistoricalRates
            [{ value_inc_vat := 10, valid_from := 0, valid_to := none }] 0
            [{ consumption := 5, interval_start := 100, interval_end := 1900 }]).getD 0
              default).cost = 0)) := by
  refine ⟨by simp, ?_⟩
  exact rateLookup_firstMatch
    [{ value_inc_vat := 10, valid_from := 0, valid_to := none }] 0
    [{ consumption := 5, interval_start := 100, interval_end := 1900 }] 0 (by simp)

/-- C4: for a nonempty rate sample, the tariff is reported time-of-use with
nightRate = min(nightValues) and standardRate = mean(dayValues) exactly when at
least one night-hour (hours 0-4 of validFrom) value and one non-night-hour
value exist and min(nightValues) < 0.8 * mean(dayValues); in every other case
it is reported single-rate with standardRate the mean of all sampled values
and nightRate null. -/
theorem tou_detection (hourOf : ℤ → ℕ) (rates : List TariffRate) (hne : rates ≠ []) :
    ((detectTariffRates hourOf rates).2 ≠ none ↔
      (nightRateValues hourOf rates ≠ [] ∧ dayRateValues hourOf rates ≠ [] ∧
        listMin (nightRateValues hourOf rates) <
          0.8 * listMean (dayRateValues hourOf rates))) ∧
    ((nightRateValues hourOf rates ≠ [] ∧ dayRateValues hourOf rates ≠ [] ∧
        listMin (nightRateValues hourOf rates) <
          0.8 * listMean (dayRateValues hourOf rates)) →
      detectTariffRates hourOf rates =
        (listMean (dayRateValues hourOf rates),
          some (listMin (nightRateValues hourOf rates)))) ∧
    ((¬ (nightRateValues hourOf rates ≠ [] ∧ dayRateValues hourOf rates ≠ [] ∧
        listMin (nightRateValues hourOf rates) <
          0.8 * listMean (dayRateValues hourOf rates))) →
      detectTariffRates hourOf rates =
        (listMean (rates.map TariffRate.value_inc_vat), none)) := by
  unfold detectTariffRates
  by_cases h1 : nightRateValues hourOf rates ≠ [] ∧ dayRateValues hourOf rates ≠ []
  · by_cases h2 : listMin (nightRateValues hourOf rates) <
        listMean (dayRateValues hourOf rates) * 0.8
    · rw [if_pos h1, if_pos h2]
      refine ⟨?_, fun _ => rfl, fun hc => absurd ⟨h1.1, h1.2, ?_⟩ hc⟩
      · constructor
        · exact fun _ => ⟨h1.1, h1.2, by rw [mul_comm]; exact h2⟩
        · exact fun _ => by simp
      · rw [mul_comm]
        exact h2
    · rw [if_pos h1, if_neg h2]
      refine ⟨?_, ?_, fun _ => rfl⟩
      · constructor
        · exact fun h => absurd rfl h
        · rintro ⟨-, -, hlt⟩
          exact absurd (by rw [mul_comm] at hlt; exact hlt) h2
      · rintro ⟨-, -, hlt⟩
        exact absurd (by rw [mul_comm] at hlt; exact hlt) h2
  · rw [if_neg h1]
    refine ⟨?_, ?_, fun _ => rfl⟩
    · constructor
      · exact fun h => absurd rfl h
      · rintro ⟨ha, hb, -⟩
        exact absurd ⟨ha, hb⟩ h1
    · rintro ⟨ha, hb, -⟩
      exact absurd ⟨ha, hb⟩ h1

theorem tou_detection_witness :
    (([{ value_inc_vat := 10, valid_from := 0, valid_to := none }] : List TariffRate) ≠ []) ∧
    (((detectTariffRates (fun _ => 0)
          [{ value_inc_vat := 10, valid_from := 0, valid_to := none }]).2 ≠ none ↔
        (nightRateValues (fun _ => 0)
            [{ value_inc_vat := 10, valid_from := 0, valid_to := none }] ≠ [] ∧
          dayRateValues (fun _ => 0)
            [{ value_inc_vat := 10, valid_from := 0, valid_to := none }] ≠ [] ∧
          listMin (nightRateValues (fun _ => 0)
              [{ value_inc_vat := 10, valid_from := 0, valid_to := none }]) <
            0.8 * listMean (dayRateValues (fun _ => 0)
              [{ value_inc_vat := 10, valid_from := 0, valid_to := none }]))) ∧
      ((nightRateValues (fun _ => 0)
            [{ value_inc_vat := 10, valid_from := 0, valid_to := none }] ≠ [] ∧
          dayRateValues (fun _ => 0)
            [{ value_inc_vat := 10, valid_from := 0, valid_to := none }] ≠ [] ∧
          listMin (nightRateValues (fun _ => 0)
              [{ value_inc_vat := 10, valid_from := 0, valid_to := none }]) <
            0.8 * listMean (dayRateValues (fun _ => 0)
              [{ value_inc_vat := 10, valid_from := 0, valid_to := none }])) →
        detectTariffRates (fun _ => 0)
            [{ value_inc_vat := 10, valid_from := 0, valid_to := none }] =
          (listMean (dayRateValues (fun _ => 0)
              [{ value_inc_vat := 10, valid_from := 0, valid_to := none }]),
            some (listMin (nightRateValues (fun _ => 0)
              [{ value_inc_vat := 10, valid_from := 0, valid_to := none }])))) ∧
      ((¬ (nightRateValues (fun _ => 0)
            [{ value_inc_vat := 10, valid_from := 0, valid_to := none }] ≠ [] ∧
          dayRateValues (fun _ => 0)
            [{ value_inc_vat := 10, valid_from := 0, valid_to := none }] ≠ [] ∧
          listMin (nightRateValues (fun _ => 0)
              [{ value_inc_vat := 10, valid_from := 0, valid_to := none }]) <
            0.8 * listMean (dayRateValues (fun _ => 0)
              [{ value_inc_vat := 10, valid_from := 0, valid_to := none }]))) →
        detectTariffRates (fun _ => 0)
            [{ value_inc_vat := 10, valid_from := 0, valid_to := none }] =
          (listMean (([{ value_inc_vat := 10, valid_from := 0, valid_to := none }] :
              List TariffRate).map TariffRate.value_inc_vat), none))) := by
  refine ⟨by simp, ?_⟩
  exact tou_detection (fun _ => 0)
    [{ value_inc_vat := 10, valid_from := 0, valid_to := none }] (by simp)

/-- C5: for rows that all carry a usable timestamp, the sum of the values of
the series produced by processCSV equals the sum of the input consumption
values to within 0.01 per output entry, and no two output entries share a date
label. -/
theorem processCSV_conservation (dateVal : String → ℤ) (rows : List CsvRow)
    (h : ∀ r ∈ rows, (effectiveStart r).isSome) :
    |((processCSV dateVal rows).map DailyDataPoint.value).sum -
        (rows.map rowConsumption).sum| ≤
      ((processCSV dateVal rows).length : ℚ) * (1 / 100) ∧
    ((processCSV dateVal rows).map DailyDataPoint.date).Nodup := by
  have hperm : (processCSV dateVal rows).Perm
      ((processRows rows).map fun p => (⟨p.1, round2 p.2⟩ : DailyDataPoint)) :=
    List.perm_insertionSort _ _
  have hval : ((processCSV dateVal rows).map DailyDataPoint.value).sum =
      (((processRows rows).map Prod.snd).map round2).sum := by
    rw [(hperm.map DailyDataPoint.value).sum_eq, List.map_map, List.map_map]
    rfl
  have hsum : ((processRows rows).map Prod.snd).sum = (rows.map rowConsumption).sum := by
    rw [processRows_eq, foldl_addVal_sum, filterMap_snd_of_all_some rows h]
    simp
  have hlen : ((processRows rows).map Prod.snd).length = (processCSV dateVal rows).length := by
    rw [List.length_map, hperm.length_eq, List.length_map]
  constructor
  · rw [hval, ← hsum]
    have hb := sum_map_round2_le ((processRows rows).map Prod.snd)
    rw [hlen] at hb
    exact hb
  · have hnd : ((processRows rows).map Prod.fst).Nodup := by
      rw [processRows_eq]
      exact foldl_addVal_nodup _ [] (by simp)
    have hp : ((processCSV dateVal rows).map DailyDataPoint.date).Perm
        ((processRows rows).map Prod.fst) := by
      have h2 := hperm.map DailyDataPoint.date
      rw [List.map_map] at h2
      exact h2
    exact hp.nodup_iff.mpr hnd

theorem processCSV_conservation_witness :
    (∀ r ∈ [csvRowW], (effectiveStart r).isSome) ∧
    (|((processCSV (fun _ => 0) [csvRowW]).map DailyDataPoint.value).sum -
        ([csvRowW].map rowConsumption).sum| ≤
      ((processCSV (fun _ => 0) [csvRowW]).length : ℚ) * (1 / 100) ∧
      ((processCSV (fun _ => 0) [csvRowW]).map DailyDataPoint.date).Nodup) := by
  refine ⟨by decide, ?_⟩
  exact processCSV_conservation (fun _ => 0) [csvRowW] (by decide)

/-- C9: a CSV row with a usable timestamp but no consumption cell is not
dropped: it contributes consumption 0 to the group of its timestamp, so a timestamp
s appearing only in such rows still yields an output entry with value 0. -/
theorem processCSV_missing_consumption_zero (dateVal : String → ℤ) (rows : List CsvRow)
    (s : String) (r : CsvRow) (hr : r ∈ rows) (hs : effectiveStart r = some s)
    (hall : ∀ r' ∈ rows, effectiveStart r' = some s →
      r'.consumption = none ∧ r'.consumptionAlt = none) :
    (⟨s, 0⟩ : DailyDataPoint) ∈ processCSV dateVal rows := by
  have hkey : s ∈ (processRows rows).map Prod.fst := by
    rw [processRows_eq, foldl_addVal_mem_keys]
    exact Or.inr ⟨(s, rowConsumption r),
      List.mem_filterMap.mpr ⟨r, hr, by rw [hs]; rfl⟩, rfl⟩
  have hsome := (lookupA_isSome_iff (processRows rows) s).mpr hkey
  have hval : (lookupA (processRows rows) s).getD 0 = 0 := by
    rw [processRows_eq, foldl_addVal_lookupA]
    have hz : (((rows.filterMap fun r =>
          (effectiveStart r).map fun d => (d, rowConsumption r)).filter
        fun it => decide (it.1 = s)).map Prod.snd).sum = 0 := by
      apply List.sum_eq_zero
      intro x hx
      obtain ⟨it, hit, rfl⟩ := List.mem_map.mp hx
      have hit2 := List.mem_filter.mp hit
      obtain ⟨r', hr', hfr'⟩ := List.mem_filterMap.mp hit2.1
      have hits : it.1 = s := by simpa using hit2.2
      cases hes : effectiveStart r' with
      | none => rw [hes] at hfr'; exact absurd hfr' (by simp)
      | some d =>
        rw [hes] at hfr'
        simp only [Option.map_some', Option.some.injEq] at hfr'
        subst hfr'
        have hd : d = s := by simpa using hits
        obtain ⟨hc1, hc2⟩ := hall r' hr' (hd ▸ hes)
        simp [rowConsumption, hc1, hc2]
    rw [hz]
    simp [lookupA]
  obtain ⟨v, hv⟩ := Option.isSome_iff_exists.mp hsome
  have hv0 : v = 0 := by
    rw [hv] at hval
    simpa using hval
  subst hv0
  have hmem : (s, (0 : ℚ)) ∈ processRows rows := lookupA_mem _ _ _ hv
  have hmem2 : (⟨s, 0⟩ : DailyDataPoint) ∈
      (processRows rows).map fun p => (⟨p.1, round2 p.2⟩ : DailyDataPoint) := by
    refine List.mem_map.mpr ⟨(s, 0), hmem, ?_⟩
    simp [round2_zero]
  exact ((List.perm_insertionSort _ _).mem_iff).mpr hmem2

theorem processCSV_missing_consumption_zero_witness :
    csvRowNoneW ∈ [csvRowNoneW] ∧
    effectiveStart csvRowNoneW = some ("x") ∧
    (∀ r' ∈ [csvRowNoneW], effectiveStart r' = some ("x") →
      r'.consumption = none ∧ r'.consumptionAlt = none) ∧
    (⟨"x", 0⟩ : DailyDataPoint) ∈ processCSV (fun _ => 0) [csvRowNoneW] := by
  refine ⟨by decide, by decide, by decide, ?_⟩
  exact processCSV_missing_consumption_zero (fun _ => 0) [csvRowNoneW] "x" csvRowNoneW
    (by decide) (by decide) (by decide)

theorem getD_mem_of_lt {α : Type} [Inhabited α] (d : α) :
    ∀ (l : List α) (i : ℕ), i < l.length → l.getD i d ∈ l
  | a :: l, 0, _ => List.mem_cons_self a l
  | a :: l, i + 1, h =>
    List.mem_cons_of_mem a (getD_mem_of_lt d l i (by simpa using h))

theorem foldl_setVal_append {α γ : Type} [DecidableEq α] (F : ℕ × α → γ)
    (step : List (α × γ) → ℕ × α → List (α × γ))
    (hstep : ∀ acc iy, step acc iy = setVal acc iy.2 (F iy)) :
    ∀ (its : List (ℕ × α)) (m : List (α × γ)),
      (∀ it ∈ its, it.2 ∉ m.map Prod.fst) → (its.map Prod.snd).Nodup →
      its.foldl step m = m ++ its.map fun it => (it.2, F it) := by
  intro its
  induction its with
  | nil => intro m _ _; simp
  | cons it its ih =>
    intro m hmem hnd
    rw [List.foldl_cons, hstep,
      setVal_of_not_mem m it.2 (F it) (hmem it (List.mem_cons_self _ _))]
    rw [ih (m ++ [(it.2, F it)]) ?_ ?_]
    · simp
    · intro it' hit'
      rw [List.map_cons] at hnd
      rcases List.nodup_cons.mp hnd with ⟨h2, -⟩
      rw [List.map_append, List.mem_append]
      push_neg
      refine ⟨hmem it' (List.mem_cons_of_mem _ hit'), ?_⟩
      simp only [List.map_cons, List.map_nil, List.mem_singleton]
      intro hc
      exact h2 (hc ▸ List.mem_map_of_mem Prod.snd hit')
    · rw [List.map_cons] at hnd
      exact (List.nodup_cons.mp hnd).2

theorem lookupA_enumFrom_map {α γ : Type} [DecidableEq α] [Inhabited α] (F : ℕ × α → γ)
    (d : α) :
    ∀ (l : List α) (n : ℕ), l.Nodup → ∀ i, i < l.length →
      lookupA ((List.enumFrom n l).map fun iy => (iy.2, F iy)) (l.getD i d) =
        some (F (n + i, l.getD i d)) := by
  intro l
  induction l with
  | nil => intro n _ i hi; simp at hi
  | cons a l ih =>
    intro n hnd i hi
    rcases List.nodup_cons.mp hnd with ⟨ha, hl⟩
    cases i with
    | zero =>
      simp [List.enumFrom, lookupA, List.getD]
    | succ i =>
      have hilen : i < l.length := by simpa using hi
      have hgd : (a :: l).getD (i + 1) d = l.getD i d := by simp [List.getD]
      rw [hgd]
      have hne : ¬ a = l.getD i d := by
        intro hc
        exact ha (hc ▸ getD_mem_of_lt d l i hilen)
      have hunf : ((List.enumFrom n (a :: l)).map fun iy => (iy.2, F iy)) =
          (a, F (n, a)) :: ((List.enumFrom (n + 1) l).map fun iy => (iy.2, F iy)) := rfl
      rw [hunf]
      have harith : n + 1 + i = n + (i + 1) := by omega
      have hlk : lookupA ((a, F (n, a)) ::
            ((List.enumFrom (n + 1) l).map fun iy => (iy.2, F iy))) (l.getD i d) =
          if a = l.getD i d then some (F (n, a))
          else lookupA ((List.enumFrom (n + 1) l).map fun iy => (iy.2, F iy))
            (l.getD i d) := rfl
      rw [hlk, if_neg hne, ih (n + 1) hl i hilen, harith]

theorem calculatePercentageChanges_eq (totals : ℤ → ℚ) (years : List ℤ)
    (h : years.Nodup) :
    calculatePercentageChanges totals years =
      (sortedYearsAsc years).enum.map fun iy =>
        (iy.2, pctF totals (sortedYearsAsc years) iy) := by
  have hnd : (sortedYearsAsc years).Nodup :=
    (List.perm_insertionSort _ _).nodup_iff.mpr h
  unfold calculatePercentageChanges
  rw [foldl_setVal_append (pctF totals (sortedYearsAsc years)) _ ?_ _ [] (by simp) ?_]
  · simp
  · intro acc iy
    obtain ⟨i, y⟩ := iy
    cases i with
    | zero => rfl
    | succ i =>
      simp only [pctF]
      split_ifs with hz <;> rfl
  · rw [List.enum_map_snd]
    exact hnd

/-- C6: after sorting the requested years ascending, the earliest year maps to
null; every later year maps to null when the previous-year total is 0, and
otherwise to ((totals[y] - totals[prev]) / totals[prev]) * 100 rounded to one
decimal place, the sign of the change being that of the signed formula. -/
theorem percentageChanges_spec (totals : ℤ → ℚ) (years : List ℤ) (h : years.Nodup) :
    List.Sorted (· ≤ ·) (sortedYearsAsc years) ∧
    ∀ i, i < (sortedYearsAsc years).length →
      lookupA (calculatePercentageChanges totals years)
          ((sortedYearsAsc years).getD i 0) =
        some (if i = 0 then none
          else if totals ((sortedYearsAsc years).getD (i - 1) 0) = 0 then none
          else some (round1 ((totals ((sortedYearsAsc years).getD i 0) -
              totals ((sortedYearsAsc years).getD (i - 1) 0)) /
            totals ((sortedYearsAsc years).getD (i - 1) 0) * 100))) := by
  have hnd : (sortedYearsAsc years).Nodup :=
    (List.perm_insertionSort _ _).nodup_iff.mpr h
  constructor
  · exact List.sorted_insertionSort _ years
  · intro i hi
    rw [calculatePercentageChanges_eq totals years h]
    have hl := lookupA_enumFrom_map (pctF totals (sortedYearsAsc years)) (0 : ℤ)
      (sortedYearsAsc years) 0 hnd i hi
    rw [show (sortedYearsAsc years).enum = List.enumFrom 0 (sortedYearsAsc years) from rfl,
      hl]
    cases i with
    | zero => rfl
    | succ i => simp [pctF]

theorem percentageChanges_spec_witness :
    ([(2023 : ℤ), 2024] : List ℤ).Nodup ∧
    (List.Sorted (· ≤ ·) (sortedYearsAsc [2023, 2024]) ∧
      ∀ i, i < (sortedYearsAsc [2023, 2024]).length →
        lookupA (calculatePercentageChanges
            (fun y => if y = 2023 then 100 else 120) [2023, 2024])
            ((sortedYearsAsc [2023, 2024]).getD i 0) =
          some (if i = 0 then none
            else if (fun y => if y = (2023 : ℤ) then (100 : ℚ) else 120)
                ((sortedYearsAsc [2023, 2024]).getD (i - 1) 0) = 0 then none
            else some (round1 (((fun y => if y = (2023 : ℤ) then (100 : ℚ) else 120)
                  ((sortedYearsAsc [2023, 2024]).getD i 0) -
                (fun y => if y = (2023 : ℤ) then (100 : ℚ) else 120)
                  ((sortedYearsAsc [2023, 2024]).getD (i - 1) 0)) /
              (fun y => if y = (2023 : ℤ) then (100 : ℚ) else 120)
                ((sortedYearsAsc [2023, 2024]).getD (i - 1) 0) * 100)))) := by
  refine ⟨by decide, ?_⟩
  exact percentageChanges_spec (fun y => if y = 2023 then 100 else 120) [2023, 2024]
    (by decide)

theorem keys_init_years (years : List ℤ) :
    ((years.map fun year => (year, ([] : List (String × ℚ)))).map Prod.fst) = years := by
  rw [List.map_map]
  exact List.map_id _

theorem lookupA_cyFold (env : DateEnv) (years : List ℤ) (data : List DailyDataPoint)
    (y : ℤ) (hy : y ∈ years) :
    lookupA (cyFold env years data) y =
      some (((data.filter fun p => decide (env.yearOf p.date = y)).map fun p =>
          (monthDayKey env p.date, p.value)).foldl (fun m it => addVal m it.1 it.2) []) := by
  unfold cyFold
  rw [lookupA_foldl_cyStep env years y hy data _, init_lookupA, if_pos hy]
  rfl

theorem sum_filterPair (env : DateEnv) (y : ℤ) (k : String) :
    ∀ data : List DailyDataPoint,
      ((((data.filter fun p => decide (env.yearOf p.date = y)).map fun p =>
          (monthDayKey env p.date, p.value)).filter fun it =>
            decide (it.1 = k)).map Prod.snd).sum =
        yearKeySum env data y k := by
  intro data
  induction data with
  | nil => rfl
  | cons p data ih =>
    unfold yearKeySum at ih ⊢
    by_cases h1 : env.yearOf p.date = y
    · by_cases h2 : monthDayKey env p.date = k <;>
        simp [List.filter_cons, h1, h2, ih]
    · simp [List.filter_cons, h1, ih]

theorem cyCell_cyFold (env : DateEnv) (years : List ℤ) (data : List DailyDataPoint)
    (y : ℤ) (hy : y ∈ years) (k : String) :
    cyCell ((lookupA (cyFold env years data) y).getD []) k =
      round2 (yearKeySum env data y k) := by
  rw [lookupA_cyFold env years data y hy, Option.getD_some]
  have hkv : (lookupA
      (((data.filter fun p => decide (env.yearOf p.date = y)).map fun p =>
          (monthDayKey env p.date, p.value)).foldl (fun m it => addVal m it.1 it.2) []) k).getD 0 =
      yearKeySum env data y k := by
    rw [foldl_addVal_lookupA]
    rw [show (lookupA ([] : List (String × ℚ)) k).getD 0 = 0 from rfl, zero_add]
    exact sum_filterPair env y k data
  cases hlk : lookupA
      (((data.filter fun p => decide (env.yearOf p.date = y)).map fun p =>
          (monthDayKey env p.date, p.value)).foldl (fun m it => addVal m it.1 it.2) []) k with
  | none =>
    have hz : yearKeySum env data y k = 0 := by
      rw [← hkv, hlk]
      rfl
    rw [hz, round2_zero]
    simp [cyCell, hlk]
  | some v =>
    have hv : v = yearKeySum env data y k := by
      rw [← hkv, hlk]
      rfl
    by_cases hv0 : v = 0
    · rw [← hv, hv0, round2_zero]
      simp [cyCell, hlk, hv0]
    · rw [← hv]
      simp [cyCell, hlk, hv0]

theorem mem_cyAllDays (env : DateEnv) (years : List ℤ) (data : List DailyDataPoint)
    (k : String) :
    k ∈ cyAllDays env years data ↔
      ∃ p ∈ data, env.yearOf p.date ∈ years ∧ monthDayKey env p.date = k := by
  unfold cyAllDays
  rw [List.mem_dedup, List.mem_flatten]
  constructor
  · rintro ⟨l, hl, hkl⟩
    obtain ⟨⟨y, g⟩, hyg, rfl⟩ := List.mem_map.mp hl
    have hent := keys_of_cyFold_entries env years data
      (years.map fun year => (year, ([] : List (String × ℚ)))) y g hyg k hkl
    rcases hent with ⟨g₀, hg₀, hkg₀⟩ | ⟨p, hp, hpy, hpk⟩
    · obtain ⟨x, hx, heq⟩ := List.mem_map.mp hg₀
      cases heq
      simp at hkg₀
    · have hyy : y ∈ years := by
        have hk2 : y ∈ (cyFold env years data).map Prod.fst :=
          List.mem_map_of_mem Prod.fst hyg
        rw [show (cyFold env years data).map Prod.fst =
            ((years.map fun year => (year, ([] : List (String × ℚ)))).map Prod.fst) from
          keys_foldl_cyStep env years data _, keys_init_years] at hk2
        exact hk2
      exact ⟨p, hp, by rw [hpy]; exact hyy, hpk⟩
  · rintro ⟨p, hp, hpy, hpk⟩
    have hlook := lookupA_cyFold env years data (env.yearOf p.date) hpy
    have hkG : k ∈ (((data.filter fun q =>
        decide (env.yearOf q.date = env.yearOf p.date)).map fun q =>
          (monthDayKey env q.date, q.value)).foldl
            (fun m it => addVal m it.1 it.2) []).map Prod.fst := by
      rw [foldl_addVal_mem_keys]
      exact Or.inr ⟨(monthDayKey env p.date, p.value),
        List.mem_map_of_mem _ (List.mem_filter.mpr ⟨hp, by simp⟩), hpk⟩
    have hmemfold := lookupA_mem _ _ _ hlook
    refine ⟨(((data.filter fun q =>
        decide (env.yearOf q.date = env.yearOf p.date)).map fun q =>
          (monthDayKey env q.date, q.value)).foldl
            (fun m it => addVal m it.1 it.2) []).map Prod.fst, ?_, hkG⟩
    exact List.mem_map_of_mem (fun q => q.2.map Prod.fst) hmemfold

/-- C7: for a nonempty requested-year list, compareYears emits one point per
distinct MM-DD key seen across the requested years, in sorted key order, and
every point carries one numeric field per requested year equal to the
2-decimal-rounded sum of the values of that year for that key (0 when the year has
no data for the key, since the empty sum rounds to 0). -/
theorem compareYears_alignment (env : DateEnv) (data : List DailyDataPoint)
    (years : List ℤ) (hne : years ≠ []) :
    ((compareYears env data years).map ComparisonDataPoint.date).Nodup ∧
    List.Sorted strLe ((compareYears env data years).map ComparisonDataPoint.date) ∧
    (∀ k : String, k ∈ (compareYears env data years).map ComparisonDataPoint.date ↔
      ∃ p ∈ data, env.yearOf p.date ∈ years ∧ monthDayKey env p.date = k) ∧
    (∀ pt ∈ compareYears env data years,
      pt.values = years.map fun year => (year, round2 (yearKeySum env data year pt.date))) := by
  have hcy : compareYears env data years =
      (List.insertionSort strLe (cyAllDays env years data)).map fun monthDay =>
        ({ date := monthDay
           values := years.map fun year =>
             (year, cyCell ((lookupA (cyFold env years data) year).getD []) monthDay) } :
          ComparisonDataPoint) := by
    unfold compareYears
    rw [if_neg hne]
  have hdates : (compareYears env data years).map ComparisonDataPoint.date =
      List.insertionSort strLe (cyAllDays env years data) := by
    rw [hcy, List.map_map]
    exact List.map_id _
  have hperm := List.perm_insertionSort strLe (cyAllDays env years data)
  refine ⟨?_, ?_, ?_, ?_⟩
  · rw [hdates]
    exact hperm.nodup_iff.mpr (List.nodup_dedup _)
  · rw [hdates]
    exact List.sorted_insertionSort strLe _
  · intro k
    rw [hdates, hperm.mem_iff]
    exact mem_cyAllDays env years data k
  · intro pt hpt
    rw [hcy] at hpt
    obtain ⟨k, hk, rfl⟩ := List.mem_map.mp hpt
    show (years.map fun year =>
        (year, cyCell ((lookupA (cyFold env years data) year).getD []) k)) =
      years.map fun year => (year, round2 (yearKeySum env data year k))
    apply List.map_congr_left
    intro y hy
    rw [cyCell_cyFold env years data y hy k]

theorem compareYears_alignment_witness :
    (([(2023 : ℤ)] : List ℤ) ≠ []) ∧
    (((compareYears envW [⟨"d", 1⟩] [2023]).map ComparisonDataPoint.date).Nodup ∧
      List.Sorted strLe ((compareYears envW [⟨"d", 1⟩] [2023]).map ComparisonDataPoint.date) ∧
      (∀ k : String,
        k ∈ (compareYears envW [⟨"d", 1⟩] [2023]).map ComparisonDataPoint.date ↔
          ∃ p ∈ [(⟨"d", 1⟩ : DailyDataPoint)],
            envW.yearOf p.date ∈ [(2023 : ℤ)] ∧ monthDayKey envW p.date = k) ∧
      (∀ pt ∈ compareYears envW [⟨"d", 1⟩] [2023],
        pt.values = [(2023 : ℤ)].map fun year =>
          (year, round2 (yearKeySum envW [⟨"d", 1⟩] year pt.date)))) := by
  refine ⟨by decide, ?_⟩
  exact compareYears_alignment envW [⟨"d", 1⟩] [2023] (by decide)
